import Mathlib

/-!
Verification of the bgpd RTR engine (`rtr.c`).

A shallow embedding of the RTR process core: the ROA/ASPA trust-data store,
the reconfiguration message handler (`rtr_dispatch_imsg_parent`), the
expiry passes (`rtr_expire_roas`, `rtr_expire_aspa`), the ASPA merge
(`rtr_aspa_insert` / `aspa_set_entry`) and the snapshot serialization
(`rtr_aspa_set_prep` / `rtr_recalc`).

Red-black trees keyed by a record comparator are modelled as Lean lists:
the staged/active trees as insertion-ordered duplicate-free lists, and the
sorted ASPA structures as lists that are strictly sorted by their key.
Machine integers are modelled as `Nat` (none of the modelled arithmetic
overflows: AS numbers and counts are used only for comparison and
indexing), `time_t` as `Int`.
-/

/-- Address family identifier. Modelled from the spec data model: a family
constraint is IPv4-only, IPv6-only, or both.  `unspec` is `AID_UNSPEC`
("match both v4 and v6"), `inet` is `AID_INET`, `inet6` is `AID_INET6`;
`aspa_set_entry` terminates the process on any other value, so the
reachable values are exactly these three. -/
inductive Aid where
  | unspec
  | inet
  | inet6
deriving DecidableEq, Repr

/-- A ROA record. Modelled from the spec: {family, prefix, max-length,
origin AS, expiry-or-zero}; `addr`/`plen` hold the prefix. Identity is
the full field tuple. -/
structure Roa where
  aid : Nat
  addr : Nat
  plen : Nat
  maxlen : Nat
  asnum : Nat
  expires : Int
deriving DecidableEq, Repr

/-- An ASPA set as it sits in the staged tree during reconfiguration:
the scalar header fields plus the two provider arrays, each of which is a
NULL pointer (`none`) until its message has arrived. -/
structure AspaStaged where
  asn : Nat
  expires : Int
  num : Nat
  tas : Option (List Nat)
  tas_aid : Option (List Aid)
deriving DecidableEq, Repr

/-- `rtr_roa_insert`: add a copy of the record to the ROA tree;
`RB_INSERT` returns an existing element on key collision and the new copy
is freed, so an exact duplicate leaves the tree unchanged.  The tree
comparator (`roa_cmp`, outside this file's source) is modelled from the
spec: identity is the full field tuple. -/
def rtr_roa_insert (rt : List Roa) (r : Roa) : List Roa :=
  if r ∈ rt then rt else rt ++ [r]

/-- `rtr_expire_roas`: one traversal of the ROA tree removing every entry
whose `expires` is non-zero and at most `now`; returns the surviving tree
and the number of removed entries. -/
def rtr_expire_roas (now : Int) : List Roa → List Roa × Nat
  | [] => ([], 0)
  | r :: rest =>
    if r.expires ≠ 0 ∧ r.expires ≤ now then
      ((rtr_expire_roas now rest).1, (rtr_expire_roas now rest).2 + 1)
    else
      (r :: (rtr_expire_roas now rest).1, (rtr_expire_roas now rest).2)

/-- `rtr_expire_aspa`: same traversal over the ASPA tree. -/
def rtr_expire_aspa (now : Int) : List AspaStaged → List AspaStaged × Nat
  | [] => ([], 0)
  | a :: rest =>
    if a.expires ≠ 0 ∧ a.expires ≤ now then
      ((rtr_expire_aspa now rest).1, (rtr_expire_aspa now rest).2 + 1)
    else
      (a :: (rtr_expire_aspa now rest).1, (rtr_expire_aspa now rest).2)

/-- The parts of `struct bgpd_config` the RTR process owns: the scalar
configuration fields (collapsed into one opaque value, copied by
`copy_config`) and the ROA and ASPA trees. -/
structure Config where
  scalars : Nat
  roa : List Roa
  aspa : List AspaStaged
deriving DecidableEq, Repr

/-- `new_config` followed by `copy_config` from the begin-configuration
payload: fresh empty trees, scalars taken from the message. -/
def new_config_from (sc : Nat) : Config :=
  { scalars := sc, roa := [], aspa := [] }

/-- `RB_INSERT` into the staged ASPA tree (keyed by customer AS,
`aspa_cmp`): on a duplicate customer AS the insert fails, the handler
logs a warning and frees the new set, leaving the tree unchanged. -/
def aspa_tree_insert (t : List AspaStaged) (a : AspaStaged) : List AspaStaged :=
  if t.any (fun x => x.asn = a.asn) then t else t ++ [a]

/-- The mutable state of the RTR process that the parent-channel dispatch
touches: the active config `conf`, the staged config `nconf` (NULL when no
reconfiguration is in flight) and the static in-progress ASPA builder. -/
structure RtrState where
  conf : Config
  nconf : Option Config
  pending : Option AspaStaged
deriving DecidableEq, Repr

/-- Parent-channel messages handled by `rtr_dispatch_imsg_parent` that
touch the trust-data store (the socket/session messages do not).  Each
constructor carries the decoded payload of the corresponding imsg. -/
inductive Msg where
  | reconfConf (scalars : Nat)
  | reconfRoaItem (r : Roa)
  | reconfAspa (asn : Nat) (expires : Int) (num : Nat)
  | reconfAspaTas (tas : List Nat)
  | reconfAspaTasAid (aids : List Aid)
  | reconfAspaDone
  | reconfDrain
  | reconfDone
deriving DecidableEq, Repr

/-- The ways a dispatch step can fail to return normally: the `fatalx`
calls present in the handler, plus the two places where the handler
dereferences the staged config without checking it for NULL (the total
embedding makes those accesses explicit error outcomes). -/
inductive Crash where
  | fatalUnexpectedAspa
  | fatalUnexpectedAspaTas
  | fatalBadAspaTasLen
  | fatalUnexpectedAspaTasAid
  | fatalBadAspaTasAidLen
  | fatalUnexpectedAspaDone
  | fatalNoConfigOnDone
  | nullConfRoaAccess
  | nullConfAspaAccess
deriving DecidableEq, Repr

/-- One iteration of the `switch` in `rtr_dispatch_imsg_parent`, plus for
the commit message the tree swap, the immediate expiry pass and the
recalculation trigger that the `IMSG_RECONF_DONE` arm performs.  `now` is
the wall clock passed to the expiry passes at commit. -/
def rtr_step (now : Int) (s : RtrState) (m : Msg) : Except Crash RtrState :=
  match m with
  | .reconfConf sc =>
    -- no check of s.nconf: a pending staged config is simply replaced
    .ok { s with nconf := some (new_config_from sc) }
  | .reconfRoaItem r =>
    match s.nconf with
    | none => .error .nullConfRoaAccess
    | some c => .ok { s with nconf := some { c with roa := rtr_roa_insert c.roa r } }
  | .reconfAspa asn e n =>
    match s.pending with
    | some _ => .error .fatalUnexpectedAspa
    | none => .ok { s with pending := some ⟨asn, e, n, none, none⟩ }
  | .reconfAspaTas tas =>
    match s.pending with
    | none => .error .fatalUnexpectedAspaTas
    | some b =>
      if tas.length = b.num then .ok { s with pending := some { b with tas := some tas } }
      else .error .fatalBadAspaTasLen
  | .reconfAspaTasAid aids =>
    match s.pending with
    | none => .error .fatalUnexpectedAspaTasAid
    | some b =>
      if aids.length = b.num then .ok { s with pending := some { b with tas_aid := some aids } }
      else .error .fatalBadAspaTasAidLen
  | .reconfAspaDone =>
    match s.pending with
    | none => .error .fatalUnexpectedAspaDone
    | some b =>
      match s.nconf with
      | none => .error .nullConfAspaAccess
      | some c =>
        .ok { s with nconf := some { c with aspa := aspa_tree_insert c.aspa b },
                     pending := none }
  | .reconfDrain => .ok s
  | .reconfDone =>
    match s.nconf with
    | none => .error .fatalNoConfigOnDone
    | some c =>
      .ok { s with
            conf := { scalars := c.scalars,
                      roa := (rtr_expire_roas now c.roa).1,
                      aspa := (rtr_expire_aspa now c.aspa).1 },
            nconf := none }

/-- Process a message sequence in arrival order, stopping at the first
crash. -/
def rtr_run (now : Int) (s : RtrState) : List Msg → Except Crash RtrState
  | [] => .ok s
  | m :: ms =>
    match rtr_step now s m with
    | .error e => .error e
    | .ok s' => rtr_run now s' ms

/-- The staged-data messages of the reconfiguration stream: ROA item,
ASPA header, ASPA providers, ASPA family mask, ASPA done. -/
def Msg.staged : Msg → Bool
  | .reconfRoaItem _ => true
  | .reconfAspa _ _ _ => true
  | .reconfAspaTas _ => true
  | .reconfAspaTasAid _ => true
  | .reconfAspaDone => true
  | _ => false

/-- The event-loop timer body in `rtr_main`: on an elapsed expiry
deadline, run the ROA expiry pass and then the ASPA expiry pass at the
current time, calling `rtr_recalc` once after each pass that removed at
least one entry.  Returns the store after both passes and the number of
`rtr_recalc` invocations. -/
def rtr_timer_tick (now : Int) (c : Config) : Config × Nat :=
  ({ c with roa := (rtr_expire_roas now c.roa).1, aspa := (rtr_expire_aspa now c.aspa).1 },
    (if (rtr_expire_roas now c.roa).2 ≠ 0 then 1 else 0) +
    (if (rtr_expire_aspa now c.aspa).2 ≠ 0 then 1 else 0))

/-- `aspa_set_entry`: add provider `n` with constraint `a` to the
provider array (kept sorted by provider AS).  The C loop scans for the
first index whose AS is `≥ n`; on equality a differing constraint is
widened to `AID_UNSPEC`, otherwise the pair is inserted at that index
(or appended when the scan runs off the end). -/
def aspa_set_entry : List (Nat × Aid) → Nat → Aid → List (Nat × Aid)
  | [], n, a => [(n, a)]
  | (m, b) :: rest, n, a =>
    if n < m then (n, a) :: (m, b) :: rest
    else if n = m then (m, if b ≠ a then .unspec else b) :: rest
    else (m, b) :: aspa_set_entry rest n a

/-- The provider loop of `rtr_aspa_insert`: fold every (provider AS,
constraint) pair of the mergeset into an existing provider array via
`aspa_set_entry`. -/
def mergeProviders (e : List (Nat × Aid)) (ps : List (Nat × Aid)) : List (Nat × Aid) :=
  ps.foldl (fun acc p => aspa_set_entry acc p.1 p.2) e

/-- An ASPA set as held in the merge engine's trees: customer AS,
expiry, and the parallel `tas`/`tas_aid` arrays as one pair list. -/
structure AspaMerged where
  asn : Nat
  expires : Int
  providers : List (Nat × Aid)
deriving DecidableEq, Repr

/-- `RB_FIND` with a needle holding the customer AS: does the tree hold
a set for this customer? -/
def aspa_find (t : List AspaMerged) (asn : Nat) : Bool :=
  t.any (fun x => x.asn = asn)

/-- `calloc` + `RB_INSERT` of a fresh, empty set for customer `asn`
into the ASPA tree (a list strictly sorted by customer AS). -/
def aspa_add_empty : List AspaMerged → Nat → List AspaMerged
  | [], asn => [⟨asn, 0, []⟩]
  | x :: rest, asn =>
    if asn < x.asn then ⟨asn, 0, []⟩ :: x :: rest
    else x :: aspa_add_empty rest asn

/-- `rtr_aspa_insert`: find the set for the mergeset's customer AS,
creating an empty one if absent, then merge every provider of the
mergeset into it with `aspa_set_entry`. -/
def rtr_aspa_insert (t : List AspaMerged) (m : AspaMerged) : List AspaMerged :=
  let t' := if aspa_find t m.asn then t else aspa_add_empty t m.asn
  t'.map (fun x =>
    if x.asn = m.asn then { x with providers := mergeProviders x.providers m.providers }
    else x)

/-- The numeric value an `Aid` occupies as a byte of the `tas_aid`
array before `rtr_aspa_set_prep` overwrites it (modelled from the spec's
enumeration order: unspec, inet, inet6). -/
def aidVal : Aid → Nat
  | .unspec => 0
  | .inet => 1
  | .inet6 => 2

/-- Store a 32-bit word as four little-endian bytes at byte offset `off`
of `buf`.  The flag reports an out-of-range store: the C `memcpy` has no
bounds check, so the model leaves the buffer unchanged and records that
the write went past the end. -/
def store32 (buf : List Nat) (off w : Nat) : List Nat × Bool :=
  if off + 4 ≤ buf.length then
    (buf.take off ++ [w % 256, w / 256 % 256, w / 65536 % 256, w / 16777216 % 256]
      ++ buf.drop (off + 4), false)
  else (buf, true)

/-- The running state of the `rtr_aspa_set_prep` loop: the `tas_aid`
byte buffer being overwritten in place, the mask word being accumulated,
the `needafi` flag and whether any store went out of range. -/
structure PrepSt where
  buf : List Nat
  mask : Nat
  needafi : Bool
  oob : Bool
deriving DecidableEq, Repr

/-- The `for` loop of `rtr_aspa_set_prep`: for provider index `i`, OR
the 2-bit family code (1 for `AID_INET`, 2 for `AID_INET6`, 3 otherwise)
into bits `2*(i % 16)` of the mask, and after every 16th provider store
the mask word at byte offset `4*(i / 16)` and reset it. -/
def prepLoop : Nat → List Aid → PrepSt → PrepSt
  | _, [], st => st
  | i, a :: rest, st =>
    let code : Nat := match a with | .inet => 1 | .inet6 => 2 | .unspec => 3
    let nf : Bool := match a with | .inet => true | .inet6 => true | .unspec => st.needafi
    let mask := st.mask ||| (code <<< ((i % 16) * 2))
    if i % 16 = 15 then
      prepLoop (i + 1) rest
        { buf := (store32 st.buf ((i / 16) * 4) mask).1, mask := 0, needafi := nf,
          oob := st.oob || (store32 st.buf ((i / 16) * 4) mask).2 }
    else
      prepLoop (i + 1) rest { st with mask := mask, needafi := nf }

/-- The outcome of `rtr_aspa_set_prep`: the returned size `s`, the
`tas_aid` pointer after the call (`none` when it was freed because no
provider carried a single-family constraint), whether any store went out
of range, and the final mask word. -/
structure PrepResult where
  s : Nat
  tas_aid : Option (List Nat)
  oob : Bool
  lastMask : Nat
deriving DecidableEq, Repr

/-- `rtr_aspa_set_prep` on the `tas_aid` array (`num` is its length,
which equals `aspa->num`): run the packing loop over the aid bytes;
if no provider was single-family-constrained, free `tas_aid` and return
`s = num * 4`; otherwise store the final mask word at byte offset
`4 * (num / 16)` and return `s = num * 4 + (num + 15) / 16`. -/
def rtr_aspa_set_prep (aids : List Aid) : PrepResult :=
  let num := aids.length
  let st := prepLoop 0 aids ⟨aids.map aidVal, 0, false, false⟩
  if st.needafi then
    { s := num * 4 + (num + 15) / 16,
      tas_aid := some (store32 st.buf ((num / 16) * 4) st.mask).1,
      oob := st.oob || (store32 st.buf ((num / 16) * 4) st.mask).2,
      lastMask := st.mask }
  else
    { s := num * 4, tas_aid := none, oob := st.oob, lastMask := st.mask }

/-- The family-mask message of the per-set push in `rtr_recalc`: sent
only when `tas_aid` is non-NULL after prep, carrying the first
`(num + 15) / 16` bytes of the buffer. -/
def rtr_aspa_mask_push (num : Nat) (r : PrepResult) : Option (List Nat) :=
  r.tas_aid.map (fun buf => buf.take ((num + 15) / 16))

/-- Concrete ROA: v4 (`aid = 1`), 10.0.0.0/8, maxlen 24, AS 65000, never
expires. -/
def exRoa0 : Roa := ⟨1, 167772160, 8, 24, 65000, 0⟩

/-- Concrete ROA identical to `exRoa0` except it expires at time 1. -/
def exRoaExp : Roa := ⟨1, 167772160, 8, 24, 65000, 1⟩

/-- Look up the constraint stored for provider AS `n` in a provider
array (first occurrence; on the strictly-sorted arrays the code builds,
occurrences are unique). -/
def lookupA : List (Nat × Aid) → Nat → Option Aid
  | [], _ => none
  | (m, b) :: rest, n => if n = m then some b else lookupA rest n

/-- The constraint `aspa_set_entry` leaves for a provider merged with
constraint `a`: `a` itself when the provider was absent, the stored
constraint when it agrees, `AID_UNSPEC` (both families) otherwise. -/
def mergeAid : Option Aid → Aid → Aid
  | none, a => a
  | some b, a => if b ≠ a then .unspec else b

/-- A provider array is strictly ascending in the provider AS. -/
def keysSorted (e : List (Nat × Aid)) : Prop :=
  e.Pairwise (fun p q => p.1 < q.1)

/-- Every pair of `ps` is already absorbed by the provider array `e`:
the provider is present with the same constraint or with `AID_UNSPEC`. -/
def Covered (e ps : List (Nat × Aid)) : Prop :=
  ∀ p ∈ ps, lookupA e p.1 = some p.2 ∨ lookupA e p.1 = some .unspec

/-- An ASPA tree is strictly ascending in the customer AS. -/
def treeSorted (t : List AspaMerged) : Prop :=
  t.Pairwise (fun x y => x.asn < y.asn)

/-- Every set of the tree has a strictly sorted provider array. -/
def treeProvsSorted (t : List AspaMerged) : Prop :=
  ∀ x ∈ t, keysSorted x.providers

/-- Concrete ASPA mergeset: customer AS 65001 with providers 64501
(IPv4-only) and 64502 (both). -/
def exAspaM : AspaMerged := ⟨65001, 0, [(64501, .inet), (64502, .unspec)]⟩

/-- An expiry pass at a time no entry has reached removes nothing. -/
theorem rtr_expire_roas_noop (now : Int) (t : List Roa)
    (h : ∀ r ∈ t, r.expires = 0 ∨ now < r.expires) : rtr_expire_roas now t = (t, 0) := by
  induction t with
  | nil => rfl
  | cons r rest ih =>
    have hr := h r (by simp)
    have hcond : ¬(r.expires ≠ 0 ∧ r.expires ≤ now) := by
      rcases hr with h0 | hlt
      · simp [h0]
      · intro hc
        omega
    simp only [rtr_expire_roas, if_neg hcond, ih (fun x hx => h x (by simp [hx]))]

/-- An expiry pass at a time no ASPA set has reached removes nothing. -/
theorem rtr_expire_aspa_noop (now : Int) (t : List AspaStaged)
    (h : ∀ a ∈ t, a.expires = 0 ∨ now < a.expires) : rtr_expire_aspa now t = (t, 0) := by
  induction t with
  | nil => rfl
  | cons a rest ih =>
    have ha := h a (by simp)
    have hcond : ¬(a.expires ≠ 0 ∧ a.expires ≤ now) := by
      rcases ha with h0 | hlt
      · simp [h0]
      · intro hc
        omega
    simp only [rtr_expire_aspa, if_neg hcond, ih (fun x hx => h x (by simp [hx]))]

/-- Claim C1 (amended): while a reconfiguration is in progress, processing
any staged message (ROA item, ASPA header, ASPA providers, ASPA family
mask, ASPA done) leaves the active store completely unchanged; processing
the commit message replaces the active ROA and ASPA trees with the staged
trees after one immediate expiry pass at commit time, so whenever no
staged entry is already expired the active store reflects the staged data
fully. -/
theorem thm_C1 :
    (∀ (now : Int) (s : RtrState) (m : Msg) (s' : RtrState),
      m.staged = true → rtr_step now s m = .ok s' → s'.conf = s.conf) ∧
    (∀ (now : Int) (s : RtrState) (c : Config),
      s.nconf = some c →
      rtr_step now s .reconfDone =
        .ok ⟨⟨c.scalars, (rtr_expire_roas now c.roa).1, (rtr_expire_aspa now c.aspa).1⟩,
             none, s.pending⟩ ∧
      ((∀ r ∈ c.roa, r.expires = 0 ∨ now < r.expires) →
        (rtr_expire_roas now c.roa).1 = c.roa) ∧
      ((∀ a ∈ c.aspa, a.expires = 0 ∨ now < a.expires) →
        (rtr_expire_aspa now c.aspa).1 = c.aspa)) := by
  constructor
  · intro now s m s' hst h
    cases m with
    | reconfConf sc => simp [Msg.staged] at hst
    | reconfRoaItem r =>
      cases hnc : s.nconf with
      | none => simp [rtr_step, hnc] at h
      | some c =>
        simp only [rtr_step, hnc] at h
        cases h
        rfl
    | reconfAspa asn e n =>
      cases hp : s.pending with
      | some b => simp [rtr_step, hp] at h
      | none =>
        simp only [rtr_step, hp] at h
        cases h
        rfl
    | reconfAspaTas tas =>
      cases hp : s.pending with
      | none => simp [rtr_step, hp] at h
      | some b =>
        by_cases hl : tas.length = b.num
        · simp only [rtr_step, hp, if_pos hl] at h
          cases h
          rfl
        · simp [rtr_step, hp, if_neg hl] at h
    | reconfAspaTasAid aids =>
      cases hp : s.pending with
      | none => simp [rtr_step, hp] at h
      | some b =>
        by_cases hl : aids.length = b.num
        · simp only [rtr_step, hp, if_pos hl] at h
          cases h
          rfl
        · simp [rtr_step, hp, if_neg hl] at h
    | reconfAspaDone =>
      cases hp : s.pending with
      | none => simp [rtr_step, hp] at h
      | some b =>
        cases hnc : s.nconf with
        | none => simp [rtr_step, hp, hnc] at h
        | some c =>
          simp only [rtr_step, hp, hnc] at h
          cases h
          rfl
    | reconfDrain => simp [Msg.staged] at hst
    | reconfDone => simp [Msg.staged] at hst
  · intro now s c hnc
    refine ⟨by simp only [rtr_step, hnc], ?_, ?_⟩
    · intro h
      rw [rtr_expire_roas_noop now c.roa h]
    · intro h
      rw [rtr_expire_aspa_noop now c.aspa h]

/-- Witness for C1: a concrete staged ROA-item step that leaves the
active store untouched, and a concrete commit whose staged data holds
only `exRoa0` (which never expires) and lands in the active store in
full. -/
theorem thm_C1_witness :
    (Msg.staged (.reconfRoaItem exRoa0) = true ∧
      (⟨⟨2, [exRoa0], []⟩, some ⟨5, [exRoa0], []⟩, none⟩ : RtrState).conf
        = (⟨⟨2, [exRoa0], []⟩, some ⟨5, [], []⟩, none⟩ : RtrState).conf) ∧
    rtr_step 5 ⟨⟨2, [], []⟩, some ⟨7, [exRoa0], []⟩, none⟩ .reconfDone =
      .ok ⟨⟨7, (rtr_expire_roas 5 [exRoa0]).1, (rtr_expire_aspa 5 []).1⟩, none, none⟩ ∧
    (rtr_expire_roas 5 [exRoa0]).1 = [exRoa0] :=
  ⟨⟨rfl, thm_C1.1 5 ⟨⟨2, [exRoa0], []⟩, some ⟨5, [], []⟩, none⟩ (.reconfRoaItem exRoa0)
      ⟨⟨2, [exRoa0], []⟩, some ⟨5, [exRoa0], []⟩, none⟩ rfl rfl⟩,
   (thm_C1.2 5 ⟨⟨2, [], []⟩, some ⟨7, [exRoa0], []⟩, none⟩ ⟨7, [exRoa0], []⟩ rfl).1,
   (thm_C1.2 5 ⟨⟨2, [], []⟩, some ⟨7, [exRoa0], []⟩, none⟩ ⟨7, [exRoa0], []⟩ rfl).2.1
     (by intro r hr; rw [List.mem_singleton] at hr; subst hr; left; rfl)⟩

/-- Counterexample to C1 as stated: commit does not always leave the
active store fully reflecting the staged data.  Staging the single ROA
`exRoaExp` (expires at 1) and committing at time 5 yields an empty active
ROA tree, although the staged tree held exactly `[exRoaExp]`. -/
theorem thm_C1_cex :
    rtr_run 5 ⟨⟨0, [], []⟩, none, none⟩
      [.reconfConf 1, .reconfRoaItem exRoaExp, .reconfDone] =
      .ok ⟨⟨1, [], []⟩, none, none⟩ ∧
    rtr_roa_insert [] exRoaExp = [exRoaExp] ∧
    ([] : List Roa) ≠ [exRoaExp] :=
  ⟨rfl, rfl, by simp⟩

/-- Claim C3 (amended): a begin-configuration message that arrives while
a staged configuration is already pending is not a fatal protocol
violation: the handler allocates a fresh staged configuration in its
place (silently discarding the pending staged data) and continues. -/
theorem thm_C3 (now : Int) (s : RtrState) (c : Config) (sc : Nat)
    (h : s.nconf = some c) :
    rtr_step now s (.reconfConf sc) = .ok { s with nconf := some (new_config_from sc) } :=
  rfl

/-- Witness for C3: a second begin over a pending staged config holding
one ROA succeeds and resets the staged config. -/
theorem thm_C3_witness :
    rtr_step 0 ⟨⟨0, [], []⟩, some ⟨3, [exRoa0], []⟩, none⟩ (.reconfConf 7) =
      .ok ⟨⟨0, [], []⟩, some ⟨7, [], []⟩, none⟩ :=
  thm_C3 0 ⟨⟨0, [], []⟩, some ⟨3, [exRoa0], []⟩, none⟩ ⟨3, [exRoa0], []⟩ 7 rfl

/-- Counterexample to C3 as stated: with a staged configuration pending,
a second begin-configuration message returns normally — the handler does
not log-and-terminate. -/
theorem thm_C3_cex :
    rtr_step 0 ⟨⟨0, [], []⟩, some ⟨3, [exRoa0], []⟩, none⟩ (.reconfConf 7) =
      .ok ⟨⟨0, [], []⟩, some ⟨7, [], []⟩, none⟩ ∧
    (rtr_step 0 ⟨⟨0, [], []⟩, some ⟨3, [exRoa0], []⟩, none⟩ (.reconfConf 7)).isOk = true :=
  ⟨rfl, rfl⟩

/-- Claim C9: a staged ROA-item with no staged configuration pending, and
an ASPA header/ASPA done pair with no staged configuration pending, both
reach the unguarded access to the absent staged store (`nconf` is NULL);
the commit handler, in contrast, fails with its explicit fatal check. -/
theorem thm_C9 :
    rtr_step 0 ⟨⟨0, [], []⟩, none, none⟩ (.reconfRoaItem exRoa0) =
      .error .nullConfRoaAccess ∧
    rtr_run 0 ⟨⟨0, [], []⟩, none, none⟩ [.reconfAspa 65001 0 0, .reconfAspaDone] =
      .error .nullConfAspaAccess ∧
    rtr_step 0 ⟨⟨0, [], []⟩, none, none⟩ .reconfDone = .error .fatalNoConfigOnDone :=
  ⟨rfl, rfl, rfl⟩

/-- Claim C4: the expiry passes remove exactly the entries whose expiry
is non-zero and at most `now`, return the removed count, and on an
elapsed deadline the event loop triggers one recalculation per category
whose pass removed at least one entry; a single ROA entry expiring at
`now - 1` causes exactly one recalculation at the tick. -/
theorem thm_C4 :
    (∀ (now : Int) (t : List Roa) (r : Roa),
      r ∈ (rtr_expire_roas now t).1 ↔ r ∈ t ∧ (r.expires = 0 ∨ now < r.expires)) ∧
    (∀ (now : Int) (t : List Roa),
      (rtr_expire_roas now t).2 =
        t.countP (fun r => decide (r.expires ≠ 0 ∧ r.expires ≤ now))) ∧
    (∀ (now : Int) (t : List AspaStaged) (a : AspaStaged),
      a ∈ (rtr_expire_aspa now t).1 ↔ a ∈ t ∧ (a.expires = 0 ∨ now < a.expires)) ∧
    (∀ (now : Int) (t : List AspaStaged),
      (rtr_expire_aspa now t).2 =
        t.countP (fun a => decide (a.expires ≠ 0 ∧ a.expires ≤ now))) ∧
    (∀ (now : Int) (c : Config),
      (rtr_timer_tick now c).2 =
        (if 0 < (rtr_expire_roas now c.roa).2 then 1 else 0) +
        (if 0 < (rtr_expire_aspa now c.aspa).2 then 1 else 0)) ∧
    (∀ (now : Int) (sc : Nat) (r : Roa), 2 ≤ now → r.expires = now - 1 →
      rtr_timer_tick now ⟨sc, [r], []⟩ = (⟨sc, [], []⟩, 1)) := by
  refine ⟨?_, ?_, ?_, ?_, ?_, ?_⟩
  · intro now t r
    induction t with
    | nil => simp [rtr_expire_roas]
    | cons x rest ih =>
      by_cases hc : x.expires ≠ 0 ∧ x.expires ≤ now
      · rw [rtr_expire_roas, if_pos hc]
        simp only [List.mem_cons, ih]
        constructor
        · exact fun h => ⟨Or.inr h.1, h.2⟩
        · rintro ⟨hx | hx, hok⟩
          · subst hx
            rcases hok with h0 | hlt <;> [exact absurd h0 hc.1; omega]
          · exact ⟨hx, hok⟩
      · rw [rtr_expire_roas, if_neg hc]
        simp only [List.mem_cons, ih]
        constructor
        · rintro (hx | ⟨hm, hok⟩)
          · subst hx
            refine ⟨Or.inl rfl, ?_⟩
            by_cases h0 : r.expires = 0
            · exact Or.inl h0
            · exact Or.inr (by omega)
          · exact ⟨Or.inr hm, hok⟩
        · rintro ⟨hx | hx, hok⟩
          · exact Or.inl hx
          · exact Or.inr ⟨hx, hok⟩
  · intro now t
    induction t with
    | nil => rfl
    | cons x rest ih =>
      by_cases hc : x.expires ≠ 0 ∧ x.expires ≤ now
      · rw [rtr_expire_roas, if_pos hc, List.countP_cons_of_pos _ _ (by simpa using hc)]
        omega
      · rw [rtr_expire_roas, if_neg hc, List.countP_cons_of_neg _ _ (by simpa using hc)]
        exact ih
  · intro now t a
    induction t with
    | nil => simp [rtr_expire_aspa]
    | cons x rest ih =>
      by_cases hc : x.expires ≠ 0 ∧ x.expires ≤ now
      · rw [rtr_expire_aspa, if_pos hc]
        simp only [List.mem_cons, ih]
        constructor
        · exact fun h => ⟨Or.inr h.1, h.2⟩
        · rintro ⟨hx | hx, hok⟩
          · subst hx
            rcases hok with h0 | hlt <;> [exact absurd h0 hc.1; omega]
          · exact ⟨hx, hok⟩
      · rw [rtr_expire_aspa, if_neg hc]
        simp only [List.mem_cons, ih]
        constructor
        · rintro (hx | ⟨hm, hok⟩)
          · subst hx
            refine ⟨Or.inl rfl, ?_⟩
            by_cases h0 : a.expires = 0
            · exact Or.inl h0
            · exact Or.inr (by omega)
          · exact ⟨Or.inr hm, hok⟩
        · rintro ⟨hx | hx, hok⟩
          · exact Or.inl hx
          · exact Or.inr ⟨hx, hok⟩
  · intro now t
    induction t with
    | nil => rfl
    | cons x rest ih =>
      by_cases hc : x.expires ≠ 0 ∧ x.expires ≤ now
      · rw [rtr_expire_aspa, if_pos hc, List.countP_cons_of_pos _ _ (by simpa using hc)]
        omega
      · rw [rtr_expire_aspa, if_neg hc, List.countP_cons_of_neg _ _ (by simpa using hc)]
        exact ih
  · intro now c
    simp only [rtr_timer_tick, Nat.pos_iff_ne_zero]
  · intro now sc r h2 hex
    have hc : r.expires ≠ 0 ∧ r.expires ≤ now := by constructor <;> omega
    simp only [rtr_timer_tick, rtr_expire_roas, rtr_expire_aspa, if_pos hc]
    simp

/-- Witness for C4's timer-tick scenario: at `now = 10`, a store holding
one ROA with `expires = 9` loses that entry and triggers exactly one
recalculation. -/
theorem thm_C4_witness :
    (2 : Int) ≤ 10 ∧ (⟨1, 0, 8, 24, 65000, 9⟩ : Roa).expires = 10 - 1 ∧
    rtr_timer_tick 10 ⟨0, [⟨1, 0, 8, 24, 65000, 9⟩], []⟩ = (⟨0, [], []⟩, 1) :=
  ⟨by norm_num, by norm_num, thm_C4.2.2.2.2.2 10 0 ⟨1, 0, 8, 24, 65000, 9⟩
    (by norm_num) (by norm_num)⟩

/-- Claim C7: inserting the identical ROA record twice yields the same
tree as inserting it once (the duplicate is ignored, the first entry kept
as-is), and on a duplicate-free tree the record is stored exactly once. -/
theorem thm_C7 (t : List Roa) (r : Roa) :
    rtr_roa_insert (rtr_roa_insert t r) r = rtr_roa_insert t r ∧
    (t.Nodup → (rtr_roa_insert (rtr_roa_insert t r) r).count r = 1) := by
  by_cases hm : r ∈ t
  · simp only [rtr_roa_insert, if_pos hm]
    exact ⟨trivial, fun hd => List.count_eq_one_of_mem hd hm⟩
  · have hm2 : r ∈ t ++ [r] := by simp
    simp only [rtr_roa_insert, if_neg hm, if_pos hm2]
    refine ⟨trivial, fun hd => ?_⟩
    rw [List.count_append, List.count_eq_zero_of_not_mem hm]
    simp

/-- Witness for C7: the spec's example ROA (v4, 10.0.0.0/8, maxlen 24,
AS 65000, expires 0) inserted twice into the empty tree is stored exactly
once. -/
theorem thm_C7_witness :
    rtr_roa_insert (rtr_roa_insert [] exRoa0) exRoa0 = rtr_roa_insert [] exRoa0 ∧
    (rtr_roa_insert (rtr_roa_insert [] exRoa0) exRoa0).count exRoa0 = 1 :=
  ⟨(thm_C7 [] exRoa0).1, (thm_C7 [] exRoa0).2 List.nodup_nil⟩

/-- Every provider AS in the array after `aspa_set_entry` is either the
inserted AS or one already present. -/
theorem aspa_set_entry_keys (n : Nat) (a : Aid) :
    ∀ (e : List (Nat × Aid)) (p : Nat × Aid),
      p ∈ aspa_set_entry e n a → p.1 = n ∨ ∃ q ∈ e, p.1 = q.1 := by
  intro e
  induction e with
  | nil =>
    intro p hp
    simp only [aspa_set_entry, List.mem_singleton] at hp
    subst hp
    exact Or.inl rfl
  | cons q rest ih =>
    obtain ⟨m, b⟩ := q
    intro p hp
    by_cases h1 : n < m
    · simp only [aspa_set_entry, if_pos h1] at hp
      rcases List.mem_cons.mp hp with h | h
      · subst h
        exact Or.inl rfl
      · exact Or.inr ⟨p, h, rfl⟩
    · by_cases h2 : n = m
      · simp only [aspa_set_entry, if_neg h1, if_pos h2] at hp
        rcases List.mem_cons.mp hp with h | h
        · subst h
          exact Or.inr ⟨(m, b), List.mem_cons_self _ _, rfl⟩
        · exact Or.inr ⟨p, List.mem_cons_of_mem _ h, rfl⟩
      · simp only [aspa_set_entry, if_neg h1, if_neg h2] at hp
        rcases List.mem_cons.mp hp with h | h
        · subst h
          exact Or.inr ⟨(m, b), List.mem_cons_self _ _, rfl⟩
        · rcases ih p h with hk | ⟨q', hq', hpq⟩
          · exact Or.inl hk
          · exact Or.inr ⟨q', List.mem_cons_of_mem _ hq', hpq⟩

/-- A provider smaller than every AS of the array is absent. -/
theorem lookupA_eq_none (n : Nat) :
    ∀ (e : List (Nat × Aid)), (∀ q ∈ e, n < q.1) → lookupA e n = none := by
  intro e
  induction e with
  | nil => intro _; rfl
  | cons q rest ih =>
    intro h
    obtain ⟨m, b⟩ := q
    have hm : n < m := h (m, b) (List.mem_cons_self _ _)
    rw [lookupA, if_neg (by omega)]
    exact ih fun x hx => h x (List.mem_cons_of_mem _ hx)

/-- `aspa_set_entry` keeps the provider array strictly sorted. -/
theorem aspa_set_entry_sorted (n : Nat) (a : Aid) :
    ∀ (e : List (Nat × Aid)), keysSorted e → keysSorted (aspa_set_entry e n a) := by
  intro e
  induction e with
  | nil =>
    intro _
    simp [aspa_set_entry, keysSorted]
  | cons q rest ih =>
    obtain ⟨m, b⟩ := q
    intro h
    simp only [keysSorted, List.pairwise_cons] at h
    obtain ⟨hhead, htail⟩ := h
    by_cases h1 : n < m
    · simp only [aspa_set_entry, if_pos h1, keysSorted, List.pairwise_cons]
      refine ⟨?_, hhead, htail⟩
      intro p hp
      rcases List.mem_cons.mp hp with hp | hp
      · subst hp
        exact h1
      · exact lt_trans h1 (hhead p hp)
    · by_cases h2 : n = m
      · simp only [aspa_set_entry, if_neg h1, if_pos h2, keysSorted, List.pairwise_cons]
        exact ⟨hhead, htail⟩
      · simp only [aspa_set_entry, if_neg h1, if_neg h2, keysSorted, List.pairwise_cons]
        refine ⟨?_, ih htail⟩
        intro p hp
        rcases aspa_set_entry_keys n a rest p hp with hk | ⟨q', hq', hpq⟩
        · rw [hk]
          omega
        · rw [hpq]
          exact hhead q' hq'

/-- On a sorted array, the constraint stored for the merged provider is
`mergeAid` of what was stored before. -/
theorem lookupA_entry_self (n : Nat) (a : Aid) :
    ∀ (e : List (Nat × Aid)), keysSorted e →
      lookupA (aspa_set_entry e n a) n = some (mergeAid (lookupA e n) a) := by
  intro e
  induction e with
  | nil =>
    intro _
    simp [aspa_set_entry, lookupA, mergeAid]
  | cons q rest ih =>
    obtain ⟨m, b⟩ := q
    intro h
    simp only [keysSorted, List.pairwise_cons] at h
    obtain ⟨hhead, htail⟩ := h
    by_cases h1 : n < m
    · have hrest : lookupA rest n = none :=
        lookupA_eq_none n rest (fun q hq => lt_trans h1 (hhead q hq))
      have hne : ¬(n = m) := by omega
      simp [aspa_set_entry, h1, lookupA, hne, hrest, mergeAid]
    · by_cases h2 : n = m
      · subst h2
        simp [aspa_set_entry, h1, lookupA, mergeAid]
      · simp only [aspa_set_entry, if_neg h1, if_neg h2]
        rw [lookupA, if_neg h2, lookupA, if_neg h2]
        exact ih htail

/-- `aspa_set_entry` does not change what is stored for any other
provider AS. -/
theorem lookupA_entry_ne (n n' : Nat) (a : Aid) (hne : n' ≠ n) :
    ∀ (e : List (Nat × Aid)), lookupA (aspa_set_entry e n a) n' = lookupA e n' := by
  intro e
  induction e with
  | nil => simp [aspa_set_entry, lookupA, hne]
  | cons q rest ih =>
    obtain ⟨m, b⟩ := q
    by_cases h1 : n < m
    · simp [aspa_set_entry, h1, lookupA, hne]
    · by_cases h2 : n = m
      · subst h2
        simp [aspa_set_entry, h1, lookupA, hne]
      · simp only [aspa_set_entry, if_neg h1, if_neg h2]
        rw [lookupA, lookupA]
        by_cases h3 : n' = m
        · simp [h3]
        · simp [h3, ih]

/-- A provider already stored with the same constraint or with
`AID_UNSPEC` makes `aspa_set_entry` a no-op (the widening writes back
the value that is already there). -/
theorem aspa_set_entry_fix (n : Nat) (a : Aid) :
    ∀ (e : List (Nat × Aid)), keysSorted e →
      lookupA e n = some a ∨ lookupA e n = some .unspec →
      aspa_set_entry e n a = e := by
  intro e
  induction e with
  | nil =>
    intro _ hl
    rcases hl with h | h <;> simp [lookupA] at h
  | cons q rest ih =>
    obtain ⟨m, b⟩ := q
    intro hs hl
    simp only [keysSorted, List.pairwise_cons] at hs
    obtain ⟨hhead, htail⟩ := hs
    by_cases h1 : n < m
    · have hnone : lookupA ((m, b) :: rest) n = none := by
        rw [lookupA, if_neg (by omega)]
        exact lookupA_eq_none n rest (fun q hq => lt_trans h1 (hhead q hq))
      rw [hnone] at hl
      rcases hl with h | h <;> cases h
    · by_cases h2 : n = m
      · subst h2
        have hlb : lookupA ((n, b) :: rest) n = some b := by simp [lookupA]
        rw [hlb] at hl
        have hb : b = a ∨ b = .unspec := by
          rcases hl with h | h
          · exact Or.inl (Option.some.inj h)
          · exact Or.inr (Option.some.inj h)
        have hw : (if b ≠ a then Aid.unspec else b) = b := by
          rcases hb with hb | hb
          · subst hb
            simp
          · subst hb
            exact ite_self _
        simp only [aspa_set_entry, if_neg h1, if_pos rfl, hw, if_true]
      · have heq : lookupA ((m, b) :: rest) n = lookupA rest n := by
          rw [lookupA, if_neg h2]
        rw [heq] at hl
        simp only [aspa_set_entry, if_neg h1, if_neg h2, ih htail hl]

/-- One merge step preserves coverage: after `aspa_set_entry e n a`, the
pair `(n, a)` and every pair already covered by `e` are covered. -/
theorem covered_entry_step (e qs : List (Nat × Aid)) (n : Nat) (a : Aid)
    (h : keysSorted e) (hc : Covered e qs) :
    Covered (aspa_set_entry e n a) ((n, a) :: qs) := by
  intro p hp
  rcases List.mem_cons.mp hp with hp | hp
  · subst hp
    rw [lookupA_entry_self n a e h]
    cases hl : lookupA e n with
    | none => exact Or.inl (by simp [mergeAid])
    | some b =>
      by_cases hba : b = a
      · exact Or.inl (by simp [mergeAid, hba])
      · exact Or.inr (by simp [mergeAid, hba])
  · by_cases hpn : p.1 = n
    -- the stored constraint was p.2 or unspec; the merge keeps it or widens
    · rw [hpn, lookupA_entry_self n a e h]
      rcases hc p hp with hold | hold <;> rw [hpn] at hold <;> rw [hold]
      · by_cases hpa : p.2 = a
        · exact Or.inl (by simp [mergeAid, hpa])
        · exact Or.inr (by simp [mergeAid, hpa])
      · exact Or.inr (by simp [mergeAid, ite_self])
    · rw [lookupA_entry_ne n p.1 a hpn e]
      exact hc p hp

/-- Folding a provider list into a sorted array keeps it sorted and
covers both the folded list and anything covered before. -/
theorem mergeProviders_sorted_covered :
    ∀ (ps qs e : List (Nat × Aid)), keysSorted e → Covered e qs →
      keysSorted (mergeProviders e ps) ∧
      Covered (mergeProviders e ps) ps ∧ Covered (mergeProviders e ps) qs := by
  intro ps
  induction ps with
  | nil =>
    intro qs e h hc
    exact ⟨h, fun p hp => absurd hp (List.not_mem_nil p), hc⟩
  | cons p ps ih =>
    intro qs e h hc
    have hstep : Covered (aspa_set_entry e p.1 p.2) ((p.1, p.2) :: qs) :=
      covered_entry_step e qs p.1 p.2 h hc
    have hs' : keysSorted (aspa_set_entry e p.1 p.2) := aspa_set_entry_sorted p.1 p.2 e h
    have hmain := ih ((p.1, p.2) :: qs) (aspa_set_entry e p.1 p.2) hs' hstep
    have heq : mergeProviders e (p :: ps) = mergeProviders (aspa_set_entry e p.1 p.2) ps := rfl
    rw [heq]
    refine ⟨hmain.1, ?_, ?_⟩
    · intro q hq
      rcases List.mem_cons.mp hq with hq | hq
      · subst hq
        exact hmain.2.2 (q.1, q.2) (List.mem_cons_self _ _)
      · exact hmain.2.1 q hq
    · intro q hq
      exact hmain.2.2 q (List.mem_cons_of_mem _ hq)

/-- Folding a provider list that the array already covers changes
nothing. -/
theorem mergeProviders_fix :
    ∀ (ps e : List (Nat × Aid)), keysSorted e → Covered e ps →
      mergeProviders e ps = e
  | [], _, _, _ => rfl
  | p :: ps, e, h, hc => by
    have hfix : aspa_set_entry e p.1 p.2 = e :=
      aspa_set_entry_fix p.1 p.2 e h (hc p (List.mem_cons_self _ _))
    have heq : mergeProviders e (p :: ps) = mergeProviders (aspa_set_entry e p.1 p.2) ps := rfl
    rw [heq, hfix]
    exact mergeProviders_fix ps e h (fun q hq => hc q (List.mem_cons_of_mem _ hq))

/-- Claim C5: merging an ASPA set into an empty union twice yields
exactly the same union — same customer entries, provider arrays and
family constraints — as merging it once. -/
theorem thm_C5 (m : AspaMerged) :
    rtr_aspa_insert (rtr_aspa_insert [] m) m = rtr_aspa_insert [] m := by
  have h1 : rtr_aspa_insert [] m = [⟨m.asn, 0, mergeProviders [] m.providers⟩] := by
    simp [rtr_aspa_insert, aspa_find, aspa_add_empty]
  have hsc := mergeProviders_sorted_covered m.providers [] []
    (List.Pairwise.nil) (fun p hp => absurd hp (List.not_mem_nil p))
  have hfix := mergeProviders_fix m.providers (mergeProviders [] m.providers)
    hsc.1 hsc.2.1
  rw [h1]
  simp [rtr_aspa_insert, aspa_find, hfix]

/-- Widening a provider with IPv4-only and then IPv6-only produces the
same array as the two merges in the opposite order. -/
theorem entry_widen_comm (n : Nat) :
    ∀ e : List (Nat × Aid),
      aspa_set_entry (aspa_set_entry e n .inet) n .inet6 =
        aspa_set_entry (aspa_set_entry e n .inet6) n .inet := by
  intro e
  induction e with
  | nil => simp [aspa_set_entry]
  | cons q rest ih =>
    obtain ⟨m, b⟩ := q
    by_cases h1 : n < m
    · simp [aspa_set_entry, h1]
    · by_cases h2 : n = m
      · subst h2
        cases b <;> simp [aspa_set_entry, h1]
      · simp [aspa_set_entry, h1, h2, ih]

/-- After the two single-family merges the provider is stored with
`AID_UNSPEC` (both families). -/
theorem entry_widen_lookup (n : Nat) :
    ∀ e : List (Nat × Aid),
      lookupA (aspa_set_entry (aspa_set_entry e n .inet) n .inet6) n = some .unspec := by
  intro e
  induction e with
  | nil => simp [aspa_set_entry, lookupA]
  | cons q rest ih =>
    obtain ⟨m, b⟩ := q
    by_cases h1 : n < m
    · simp [aspa_set_entry, h1, lookupA]
    · by_cases h2 : n = m
      · subst h2
        cases b <;> simp [aspa_set_entry, h1, lookupA]
      · simp [aspa_set_entry, h1, h2, lookupA, ih]

/-- No pair of an array whose ASes all exceed `n` has provider AS `n`. -/
theorem countP_key_zero (n : Nat) :
    ∀ e : List (Nat × Aid), (∀ q ∈ e, n < q.1) →
      e.countP (fun p => p.1 == n) = 0 := by
  intro e
  induction e with
  | nil => intro _; rfl
  | cons q rest ih =>
    intro h
    have hq : n < q.1 := h q (List.mem_cons_self _ _)
    rw [List.countP_cons_of_neg]
    · exact ih fun x hx => h x (List.mem_cons_of_mem _ hx)
    · simp
      omega

/-- On a sorted array, the merged provider AS occurs exactly once after
`aspa_set_entry`. -/
theorem countP_key_entry (n : Nat) (a : Aid) :
    ∀ e : List (Nat × Aid), keysSorted e →
      (aspa_set_entry e n a).countP (fun p => p.1 == n) = 1 := by
  intro e
  induction e with
  | nil =>
    intro _
    simp [aspa_set_entry]
  | cons q rest ih =>
    obtain ⟨m, b⟩ := q
    intro h
    simp only [keysSorted, List.pairwise_cons] at h
    obtain ⟨hhead, htail⟩ := h
    by_cases h1 : n < m
    · rw [aspa_set_entry, if_pos h1, List.countP_cons_of_pos _ _ (by simp)]
      have hz : ((m, b) :: rest).countP (fun p => p.1 == n) = 0 := by
        apply countP_key_zero
        intro x hx
        rcases List.mem_cons.mp hx with hx | hx
        · rw [hx]
          exact h1
        · exact lt_trans h1 (hhead x hx)
      omega
    · by_cases h2 : n = m
      · rw [aspa_set_entry, if_neg h1, if_pos h2,
          List.countP_cons_of_pos _ _ (by simp [h2])]
        have hz : rest.countP (fun p => p.1 == n) = 0 := by
          apply countP_key_zero
          intro x hx
          have := hhead x hx
          omega
        omega
      · rw [aspa_set_entry, if_neg h1, if_neg h2,
          List.countP_cons_of_neg _ _ (by simp; omega)]
        exact ih htail

/-- Claim C6: for every provider array and provider AS, merging the
IPv4-only and then the IPv6-only constraint for that AS gives the same
array as merging in the opposite order; the provider ends up stored with
the "both families" constraint, and (on a sorted array) as a single
entry. -/
theorem thm_C6 (e : List (Nat × Aid)) (n : Nat) :
    aspa_set_entry (aspa_set_entry e n .inet) n .inet6 =
      aspa_set_entry (aspa_set_entry e n .inet6) n .inet ∧
    lookupA (aspa_set_entry (aspa_set_entry e n .inet) n .inet6) n = some .unspec ∧
    (keysSorted e →
      (aspa_set_entry (aspa_set_entry e n .inet) n .inet6).countP
        (fun p => p.1 == n) = 1) :=
  ⟨entry_widen_comm n e, entry_widen_lookup n e,
   fun h => countP_key_entry n .inet6 (aspa_set_entry e n .inet)
     (aspa_set_entry_sorted n .inet e h)⟩

/-- Witness for C6 at the spec's example: AS 64500 merged IPv4-only then
IPv6-only on the empty array. -/
theorem thm_C6_witness :
    aspa_set_entry (aspa_set_entry [] 64500 .inet) 64500 .inet6 =
      aspa_set_entry (aspa_set_entry [] 64500 .inet6) 64500 .inet ∧
    lookupA (aspa_set_entry (aspa_set_entry [] 64500 .inet) 64500 .inet6) 64500 =
      some .unspec ∧
    (aspa_set_entry (aspa_set_entry [] 64500 .inet) 64500 .inet6).countP
      (fun p => p.1 == 64500) = 1 :=
  ⟨(thm_C6 [] 64500).1, (thm_C6 [] 64500).2.1, (thm_C6 [] 64500).2.2 List.Pairwise.nil⟩

/-- Members of the tree after inserting a fresh empty set are the old
members plus the fresh set. -/
theorem mem_aspa_add_empty (asn : Nat) :
    ∀ (t : List AspaMerged) (x : AspaMerged),
      x ∈ aspa_add_empty t asn → x ∈ t ∨ x = ⟨asn, 0, []⟩ := by
  intro t
  induction t with
  | nil =>
    intro x hx
    simp only [aspa_add_empty, List.mem_singleton] at hx
    exact Or.inr hx
  | cons y rest ih =>
    intro x hx
    by_cases h1 : asn < y.asn
    · rw [aspa_add_empty, if_pos h1] at hx
      rcases List.mem_cons.mp hx with hx | hx
      · exact Or.inr hx
      · exact Or.inl hx
    · rw [aspa_add_empty, if_neg h1] at hx
      rcases List.mem_cons.mp hx with hx | hx
      · exact Or.inl (by rw [hx]; exact List.mem_cons_self _ _)
      · rcases ih x hx with h | h
        · exact Or.inl (List.mem_cons_of_mem _ h)
        · exact Or.inr h

/-- Inserting a fresh set for a customer AS absent from a sorted tree
keeps the tree strictly sorted. -/
theorem aspa_add_empty_sorted (asn : Nat) :
    ∀ t : List AspaMerged, treeSorted t → (∀ x ∈ t, x.asn ≠ asn) →
      treeSorted (aspa_add_empty t asn) := by
  intro t
  induction t with
  | nil =>
    intro _ _
    simp [aspa_add_empty, treeSorted]
  | cons y rest ih =>
    intro hs habs
    simp only [treeSorted, List.pairwise_cons] at hs
    obtain ⟨hhead, htail⟩ := hs
    by_cases h1 : asn < y.asn
    · rw [aspa_add_empty, if_pos h1]
      simp only [treeSorted, List.pairwise_cons]
      refine ⟨?_, hhead, htail⟩
      intro x hx
      rcases List.mem_cons.mp hx with hx | hx
      · rw [hx]
        exact h1
      · exact lt_trans h1 (hhead x hx)
    · have hgt : y.asn < asn := by
        have := habs y (List.mem_cons_self _ _)
        omega
      rw [aspa_add_empty, if_neg h1]
      simp only [treeSorted, List.pairwise_cons]
      refine ⟨?_, ih htail (fun x hx => habs x (List.mem_cons_of_mem _ hx))⟩
      intro x hx
      rcases mem_aspa_add_empty asn rest x hx with h | h
      · exact hhead x h
      · rw [h]
        exact hgt

/-- A strictly sorted association list has no repeated keys. -/
theorem keysSorted_nodup (e : List (Nat × Aid)) (h : keysSorted e) :
    (e.map Prod.fst).Nodup :=
  List.Pairwise.map Prod.fst (fun a b hab => Nat.ne_of_lt hab) h

/-- Claim C8: after any `rtr_aspa_insert` into a tree whose sets all have
strictly sorted provider arrays and whose customer ASes are strictly
sorted, both invariants still hold — so no set has two entries for one
provider AS and no two sets share a customer AS. -/
theorem thm_C8 (t : List AspaMerged) (m : AspaMerged)
    (h1 : treeSorted t) (h2 : treeProvsSorted t) :
    treeSorted (rtr_aspa_insert t m) ∧
    treeProvsSorted (rtr_aspa_insert t m) ∧
    (∀ x ∈ rtr_aspa_insert t m, (x.providers.map Prod.fst).Nodup) ∧
    ((rtr_aspa_insert t m).map (fun x => x.asn)).Nodup := by
  have hts : treeSorted (if aspa_find t m.asn then t else aspa_add_empty t m.asn) := by
    by_cases hf : aspa_find t m.asn
    · simp only [if_pos hf]
      exact h1
    · have habs : ∀ x ∈ t, x.asn ≠ m.asn := by
        intro x hx hxe
        apply hf
        simp only [aspa_find, List.any_eq_true]
        exact ⟨x, hx, by simp [hxe]⟩
      simp only [if_neg hf]
      exact aspa_add_empty_sorted m.asn t h1 habs
  have htp : treeProvsSorted (if aspa_find t m.asn then t else aspa_add_empty t m.asn) := by
    by_cases hf : aspa_find t m.asn
    · simp only [if_pos hf]
      exact h2
    · simp only [if_neg hf]
      intro x hx
      rcases mem_aspa_add_empty m.asn t x hx with h | h
      · exact h2 x h
      · rw [h]
        exact List.Pairwise.nil
  have hasn : ∀ x : AspaMerged,
      (if x.asn = m.asn then
        { x with providers := mergeProviders x.providers m.providers } else x).asn
        = x.asn := by
    intro x
    by_cases hx : x.asn = m.asn <;> simp [hx]
  have hins : rtr_aspa_insert t m =
      (if aspa_find t m.asn then t else aspa_add_empty t m.asn).map
        (fun x => if x.asn = m.asn then
          { x with providers := mergeProviders x.providers m.providers } else x) := rfl
  have hsorted : treeSorted (rtr_aspa_insert t m) := by
    rw [hins]
    simp only [treeSorted, List.pairwise_map]
    exact hts.imp (fun hab => by rw [hasn, hasn]; exact hab)
  have hprovs : treeProvsSorted (rtr_aspa_insert t m) := by
    rw [hins]
    intro x hx
    rcases List.mem_map.mp hx with ⟨y, hy, hxy⟩
    subst hxy
    by_cases hym : y.asn = m.asn
    · simp only [if_pos hym]
      exact (mergeProviders_sorted_covered m.providers [] y.providers (htp y hy)
        (fun p hp => absurd hp (List.not_mem_nil p))).1
    · simp only [if_neg hym]
      exact htp y hy
  refine ⟨hsorted, hprovs, fun x hx => keysSorted_nodup _ (hprovs x hx), ?_⟩
  have hs' : List.Pairwise (fun x y : AspaMerged => x.asn < y.asn) (rtr_aspa_insert t m) :=
    hsorted
  exact List.Pairwise.map (fun x : AspaMerged => x.asn) (fun a b hab => Nat.ne_of_lt hab) hs'

/-- Witness for C8: inserting the example mergeset into the empty tree
keeps every invariant. -/
theorem thm_C8_witness :
    treeSorted (rtr_aspa_insert [] exAspaM) ∧
    treeProvsSorted (rtr_aspa_insert [] exAspaM) ∧
    (∀ x ∈ rtr_aspa_insert [] exAspaM, (x.providers.map Prod.fst).Nodup) ∧
    ((rtr_aspa_insert [] exAspaM).map (fun x => x.asn)).Nodup :=
  thm_C8 [] exAspaM List.Pairwise.nil (fun x hx => absurd hx (List.not_mem_nil x))

/-- The packing loop sets `needafi` exactly when some provider carries a
single-family constraint. -/
theorem prepLoop_needafi :
    ∀ (aids : List Aid) (i : Nat) (st : PrepSt),
      (prepLoop i aids st).needafi = (st.needafi || aids.any (fun a => a != .unspec)) := by
  intro aids
  induction aids with
  | nil =>
    intro i st
    simp [prepLoop]
  | cons a rest ih =>
    intro i st
    by_cases h15 : i % 16 = 15
    · cases a <;> simp [prepLoop, h15, ih, List.any_cons]
    · cases a <;> simp [prepLoop, h15, ih, List.any_cons]

/-- A 32-bit store leaves the buffer length unchanged (the out-of-range
case leaves the buffer itself unchanged). -/
theorem store32_length (buf : List Nat) (off w : Nat) :
    ((store32 buf off w).1).length = buf.length := by
  by_cases h : off + 4 ≤ buf.length
  · simp [store32, h]
    omega
  · simp [store32, h]

/-- The packing loop never changes the buffer length. -/
theorem prepLoop_buf_length :
    ∀ (aids : List Aid) (i : Nat) (st : PrepSt),
      (prepLoop i aids st).buf.length = st.buf.length := by
  intro aids
  induction aids with
  | nil =>
    intro i st
    simp [prepLoop]
  | cons a rest ih =>
    intro i st
    by_cases h15 : i % 16 = 15
    · simp [prepLoop, h15, ih, store32_length]
    · simp [prepLoop, h15, ih]

/-- Claim C10: for every provider array of one to three entries of which
at least one is single-family-constrained, the final mask store of
`rtr_aspa_set_prep` lands at byte offset `4 * (count / 16)` and extends
past the `count`-byte constraint array: the out-of-range store is
reached. -/
theorem thm_C10 (aids : List Aid) (h1 : 1 ≤ aids.length) (h3 : aids.length ≤ 3)
    (hc : ∃ a ∈ aids, a ≠ .unspec) :
    (rtr_aspa_set_prep aids).oob = true ∧
    aids.length < 4 * (aids.length / 16) + 4 := by
  have hdiv : aids.length / 16 = 0 := Nat.div_eq_of_lt (by omega)
  constructor
  · have hafi : (prepLoop 0 aids ⟨aids.map aidVal, 0, false, false⟩).needafi = true := by
      rw [prepLoop_needafi]
      simp only [Bool.false_or, List.any_eq_true, bne_iff_ne]
      exact hc
    have hlen : (prepLoop 0 aids ⟨aids.map aidVal, 0, false, false⟩).buf.length
        = aids.length := by
      rw [prepLoop_buf_length]
      simp
    have h4 : ¬((aids.length / 16) * 4 + 4 ≤
        (prepLoop 0 aids ⟨aids.map aidVal, 0, false, false⟩).buf.length) := by
      rw [hlen, hdiv]
      omega
    simp only [rtr_aspa_set_prep, hafi, if_true, store32, if_neg h4, Bool.or_true]
  · omega

/-- Witness for C10: a single IPv4-only provider reaches the
out-of-range store. -/
theorem thm_C10_witness :
    1 ≤ [Aid.inet].length ∧ [Aid.inet].length ≤ 3 ∧
    (rtr_aspa_set_prep [Aid.inet]).oob = true ∧
    [Aid.inet].length < 4 * ([Aid.inet].length / 16) + 4 :=
  ⟨by decide, by decide,
   (thm_C10 [Aid.inet] (by decide) (by decide)
     ⟨Aid.inet, List.mem_singleton.mpr rfl, by decide⟩).1,
   (thm_C10 [Aid.inet] (by decide) (by decide)
     ⟨Aid.inet, List.mem_singleton.mpr rfl, by decide⟩).2⟩

/-- Claim C2 evaluated on the code at the failing input: the set with
two providers and family codes [1, 3] (`AID_INET`, `AID_UNSPEC`).  The
code's mask word packs the codes as the claim says (low two bits 1, next
two bits 3: value 13), and an all-unconstrained set omits the secondary
array; but the prep size declares `2*4 + ceil(2/16)` = 9 bytes and the
push carries `ceil(2/16)` = 1 byte, where the claim requires the mask to
occupy `ceil(2/16)` 32-bit words, i.e. 4 bytes (total 12); the 4-byte
mask store also overruns the 2-byte array. -/
theorem thm_C2 :
    (rtr_aspa_set_prep [.inet, .unspec]).s = 9 ∧
    (rtr_aspa_set_prep [.inet, .unspec]).lastMask = 13 ∧
    ((rtr_aspa_mask_push 2 (rtr_aspa_set_prep [.inet, .unspec])).map List.length
      = some 1) ∧
    (rtr_aspa_set_prep [.inet, .unspec]).oob = true ∧
    (rtr_aspa_set_prep [.unspec, .unspec]).tas_aid = none ∧
    2 * 4 + 4 * ((2 + 15) / 16) = 12 ∧ (9 : Nat) ≠ 12 ∧
    (1 : Nat) ≠ 4 * ((2 + 15) / 16) := by
  decide
